import Mathlib

/-!
Shallow embedding of `src/app/services/item_service.py`: lookup utilities
over a four-level forest of educational content (Course → Lab → Task → Step),
with direct path lookups and two depth-first id searches (iterative and
recursive, each parameterised by a traversal order).
-/

namespace ItemService

/-- A Step: leaf node of the hierarchy, carries only an id. -/
structure Step where
  id : String
deriving Repr, DecidableEq

/-- A Task: id plus an ordered sequence of Steps. -/
structure Task where
  id : String
  steps : List Step
deriving Repr, DecidableEq

/-- A Lab: id plus an ordered sequence of Tasks. -/
structure Lab where
  id : String
  tasks : List Task
deriving Repr, DecidableEq

/-- A Course: id plus an ordered sequence of Labs. -/
structure Course where
  id : String
  labs : List Lab
deriving Repr, DecidableEq

/-- The union type `Item` of the Python module: any node of the hierarchy. -/
inductive Item where
  | course : Course → Item
  | lab : Lab → Item
  | task : Task → Item
  | step : Step → Item
deriving Repr, DecidableEq

/-- Every node kind exposes its id (the `Identifiable` capability). -/
def Item.id : Item → String
  | .course c => c.id
  | .lab l => l.id
  | .task t => t.id
  | .step s => s.id

/-- Traversal order: a closed enumeration with the two variants. -/
inductive Order where
  | PreOrder
  | PostOrder
deriving Repr, DecidableEq

/-- Search result pairing the matched node with the count of visited nodes. -/
structure FoundItem where
  item : Item
  visited_nodes : Nat
deriving Repr, DecidableEq

/-- Capability shared by all node kinds: having an id field.  Mirrors the
bound `T: Item` on the generic Python functions. -/
class Identifiable (T : Type) where
  ident : T → String

instance : Identifiable Course := ⟨Course.id⟩

instance : Identifiable Lab := ⟨Lab.id⟩

instance : Identifiable Task := ⟨Task.id⟩

instance : Identifiable Step := ⟨Step.id⟩

instance : Identifiable Item := ⟨Item.id⟩

/-- `find_by_id`: linear scan returning the first element with the given id. -/
def find_by_id {T : Type} [Identifiable T] (items : List T) (item_id : String) :
    Option T :=
  match items with
  | [] => none
  | item :: rest =>
    if Identifiable.ident item = item_id then some item
    else find_by_id rest item_id

/-- `get_course_by_id`: `find_by_id` on the forest of courses. -/
def get_course_by_id (courses : List Course) (course_id : String) :
    Option Course :=
  find_by_id courses course_id

/-- `get_lab_by_id`: `find_by_id` on a course's labs. -/
def get_lab_by_id (course : Course) (lab_id : String) : Option Lab :=
  find_by_id course.labs lab_id

/-- `get_task_by_id`: `find_by_id` on a lab's tasks. -/
def get_task_by_id (lab : Lab) (task_id : String) : Option Task :=
  find_by_id lab.tasks task_id

/-- `get_step_by_id`: `find_by_id` on a task's steps. -/
def get_step_by_id (task : Task) (step_id : String) : Option Step :=
  find_by_id task.steps step_id

/-- `get_course_by_path`: alias of `get_course_by_id`. -/
def get_course_by_path (courses : List Course) (course_id : String) :
    Option Course :=
  get_course_by_id courses course_id

/-- `get_lab_by_path`: descend course then lab, absent short-circuits. -/
def get_lab_by_path (courses : List Course) (course_id lab_id : String) :
    Option Lab :=
  match get_course_by_path courses course_id with
  | some course => get_lab_by_id course lab_id
  | none => none

/-- `get_task_by_path`: descend course, lab, then task. -/
def get_task_by_path (courses : List Course)
    (course_id lab_id task_id : String) : Option Task :=
  match get_lab_by_path courses course_id lab_id with
  | some lab => get_task_by_id lab task_id
  | none => none

/-- `get_step_by_path`: descend course, lab, task, then step. -/
def get_step_by_path (courses : List Course)
    (course_id lab_id task_id step_id : String) : Option Step :=
  match get_task_by_path courses course_id lab_id task_id with
  | some task => get_step_by_id task step_id
  | none => none

/-- Inner loop of the iterative PreOrder DFS over a task's steps: increments
the counter per step before testing, returning early on a match together
with the counter value at that moment. -/
def iterSteps (steps : List Step) (item_id : String) (counter : Nat) :
    Option FoundItem × Nat :=
  match steps with
  | [] => (none, counter)
  | step :: rest =>
    let counter := counter + 1
    if step.id = item_id then (some ⟨Item.step step, counter⟩, counter)
    else iterSteps rest item_id counter

/-- Loop of the iterative PreOrder DFS over a lab's tasks. -/
def iterTasks (tasks : List Task) (item_id : String) (counter : Nat) :
    Option FoundItem × Nat :=
  match tasks with
  | [] => (none, counter)
  | task :: rest =>
    let counter := counter + 1
    if task.id = item_id then (some ⟨Item.task task, counter⟩, counter)
    else
      match iterSteps task.steps item_id counter with
      | (some r, c) => (some r, c)
      | (none, c) => iterTasks rest item_id c

/-- Loop of the iterative PreOrder DFS over a course's labs. -/
def iterLabs (labs : List Lab) (item_id : String) (counter : Nat) :
    Option FoundItem × Nat :=
  match labs with
  | [] => (none, counter)
  | lab :: rest =>
    let counter := counter + 1
    if lab.id = item_id then (some ⟨Item.lab lab, counter⟩, counter)
    else
      match iterTasks lab.tasks item_id counter with
      | (some r, c) => (some r, c)
      | (none, c) => iterLabs rest item_id c

/-- Outer loop of the iterative PreOrder DFS over the forest of courses. -/
def iterCourses (courses : List Course) (item_id : String) (counter : Nat) :
    Option FoundItem × Nat :=
  match courses with
  | [] => (none, counter)
  | course :: rest =>
    let counter := counter + 1
    if course.id = item_id then (some ⟨Item.course course, counter⟩, counter)
    else
      match iterLabs course.labs item_id counter with
      | (some r, c) => (some r, c)
      | (none, c) => iterCourses rest item_id c

/-- `get_item_by_id_dfs_iterative`: nested-loop DFS with a counter starting
at 0.  PreOrder runs the nested loops; the PostOrder arm is `pass` in the
source, falling through to `return None`. -/
def get_item_by_id_dfs_iterative (courses : List Course) (item_id : String)
    (order : Order) : Option FoundItem :=
  match order with
  | .PreOrder => (iterCourses courses item_id 0).1
  | .PostOrder => none

/-- Children of a node by its concrete kind, as in the `match item` dispatch
of the recursive search: Course→labs, Lab→tasks, Task→steps, Step→none. -/
def Item.children : Item → List Item
  | .course c => c.labs.map Item.lab
  | .lab l => l.tasks.map Item.task
  | .task t => t.steps.map Item.step
  | .step _ => []

/-- Number of nodes in a task's subtree. -/
def Task.size (t : Task) : Nat := 1 + t.steps.length

/-- Number of nodes in a lab's subtree. -/
def Lab.size (l : Lab) : Nat := 1 + (l.tasks.map Task.size).sum

/-- Number of nodes in a course's subtree. -/
def Course.size (c : Course) : Nat := 1 + (c.labs.map Lab.size).sum

/-- Number of nodes in an item's subtree. -/
def Item.size : Item → Nat
  | .course c => c.size
  | .lab l => l.size
  | .task t => t.size
  | .step _ => 1

/-- Total number of nodes of a list of subtrees. -/
def itemsSize (items : List Item) : Nat := (items.map Item.size).sum

theorem itemsSize_nil : itemsSize [] = 0 := rfl

theorem itemsSize_cons (i : Item) (l : List Item) :
    itemsSize (i :: l) = i.size + itemsSize l := by
  simp [itemsSize]

theorem itemsSize_map_step (steps : List Step) :
    itemsSize (steps.map Item.step) = steps.length := by
  induction steps with
  | nil => rfl
  | cons s rest ih =>
    rw [List.map_cons, itemsSize_cons, ih]
    simp [Item.size, Nat.add_comm]

theorem itemsSize_map_task (tasks : List Task) :
    itemsSize (tasks.map Item.task) = (tasks.map Task.size).sum := by
  induction tasks with
  | nil => rfl
  | cons t rest ih =>
    rw [List.map_cons, itemsSize_cons, ih, List.map_cons, List.sum_cons]
    rfl

theorem itemsSize_map_lab (labs : List Lab) :
    itemsSize (labs.map Item.lab) = (labs.map Lab.size).sum := by
  induction labs with
  | nil => rfl
  | cons l rest ih =>
    rw [List.map_cons, itemsSize_cons, ih, List.map_cons, List.sum_cons]
    rfl

theorem itemsSize_map_course (courses : List Course) :
    itemsSize (courses.map Item.course) = (courses.map Course.size).sum := by
  induction courses with
  | nil => rfl
  | cons c rest ih =>
    rw [List.map_cons, itemsSize_cons, ih, List.map_cons, List.sum_cons]
    rfl

theorem Item.size_children (i : Item) : itemsSize i.children + 1 = i.size := by
  cases i with
  | course c =>
    rw [Item.children, itemsSize_map_lab]
    simp [Item.size, Course.size, Nat.add_comm]
  | lab l =>
    rw [Item.children, itemsSize_map_task]
    simp [Item.size, Lab.size, Nat.add_comm]
  | task t =>
    rw [Item.children, itemsSize_map_step]
    simp [Item.size, Task.size, Nat.add_comm]
  | step s => simp [Item.children, itemsSize, Item.size]

theorem Item.size_pos (i : Item) : 0 < i.size := by
  have h := Item.size_children i
  omega

/-- The shared, cross-call counter of `get_item_by_id_dfs_recursive_`,
threaded explicitly: takes the counter value on entry and returns the
result together with the counter value on exit.  Per visited node it does
the PreOrder increment-and-test, then searches the node's children, then
the PostOrder increment-and-test, short-circuiting on the first match. -/
def dfsRecAux (item_id : String) (order : Order) (items : List Item)
    (visited : Nat) : Option FoundItem × Nat :=
  match items with
  | [] => (none, visited)
  | item :: rest =>
    match order with
    | .PreOrder =>
      let v1 := visited + 1
      if item.id = item_id then (some ⟨item, v1⟩, v1)
      else
        match dfsRecAux item_id order item.children v1 with
        | (some r, v) => (some r, v)
        | (none, v) => dfsRecAux item_id order rest v
    | .PostOrder =>
      match dfsRecAux item_id order item.children visited with
      | (some r, v) => (some r, v)
      | (none, v) =>
        let v1 := v + 1
        if item.id = item_id then (some ⟨item, v1⟩, v1)
        else dfsRecAux item_id order rest v1
termination_by itemsSize items
decreasing_by
  all_goals
    have h1 := Item.size_children item
    have h2 := Item.size_pos item
    rw [itemsSize_cons]
    omega

/-- `get_item_by_id_dfs_recursive`: runs the inner recursion with the
counter initialised to 0 and returns only the optional result. -/
def get_item_by_id_dfs_recursive (items : List Item) (item_id : String)
    (order : Order) : Option FoundItem :=
  (dfsRecAux item_id order items 0).1

/-- `get_item_by_id`: loads the forest via the external provider
`read_courses` (out of scope, passed as a value) and delegates to the
iterative search. -/
def get_item_by_id (read_courses : List Course) (item_id : String)
    (order : Order) : Option FoundItem :=
  get_item_by_id_dfs_iterative read_courses item_id order

theorem dfsRecAux_steps_eq_iterSteps (item_id : String) (steps : List Step)
    (v : Nat) :
    dfsRecAux item_id .PreOrder (steps.map Item.step) v
      = iterSteps steps item_id v := by
  induction steps generalizing v with
  | nil => simp [dfsRecAux, iterSteps]
  | cons s rest ih =>
    rw [List.map_cons]
    by_cases h : s.id = item_id
    · simp [dfsRecAux, iterSteps, Item.id, h]
    · simp [dfsRecAux, iterSteps, Item.id, h, Item.children, ih]

theorem dfsRecAux_tasks_eq_iterTasks (item_id : String) (tasks : List Task)
    (v : Nat) :
    dfsRecAux item_id .PreOrder (tasks.map Item.task) v
      = iterTasks tasks item_id v := by
  induction tasks generalizing v with
  | nil => simp [dfsRecAux, iterTasks]
  | cons t rest ih =>
    rw [List.map_cons]
    by_cases h : t.id = item_id
    · simp [dfsRecAux, iterTasks, Item.id, h]
    · simp only [dfsRecAux, iterTasks, Item.id, h, if_false, Item.children,
        dfsRecAux_steps_eq_iterSteps]
      cases hs : iterSteps t.steps item_id (v + 1) with
      | mk res c => cases res <;> simp [ih]
  
theorem dfsRecAux_labs_eq_iterLabs (item_id : String) (labs : List Lab)
    (v : Nat) :
    dfsRecAux item_id .PreOrder (labs.map Item.lab) v
      = iterLabs labs item_id v := by
  induction labs generalizing v with
  | nil => simp [dfsRecAux, iterLabs]
  | cons l rest ih =>
    rw [List.map_cons]
    by_cases h : l.id = item_id
    · simp [dfsRecAux, iterLabs, Item.id, h]
    · simp only [dfsRecAux, iterLabs, Item.id, h, if_false, Item.children,
        dfsRecAux_tasks_eq_iterTasks]
      cases hs : iterTasks l.tasks item_id (v + 1) with
      | mk res c => cases res <;> simp [ih]

theorem dfsRecAux_courses_eq_iterCourses (item_id : String)
    (courses : List Course) (v : Nat) :
    dfsRecAux item_id .PreOrder (courses.map Item.course) v
      = iterCourses courses item_id v := by
  induction courses generalizing v with
  | nil => simp [dfsRecAux, iterCourses]
  | cons c rest ih =>
    rw [List.map_cons]
    by_cases h : c.id = item_id
    · simp [dfsRecAux, iterCourses, Item.id, h]
    · simp only [dfsRecAux, iterCourses, Item.id, h, if_false, Item.children,
        dfsRecAux_labs_eq_iterLabs]
      cases hs : iterLabs c.labs item_id (v + 1) with
      | mk res cc => cases res <;> simp [ih]

/-- Counter/result invariant of the recursive search: the counter never
decreases, grows by at most the number of nodes searched, and a returned
`FoundItem` carries the matched id and the exit counter, with at least one
node visited. -/
theorem dfsRecAux_spec (item_id : String) (order : Order) (items : List Item)
    (v : Nat) :
    v ≤ (dfsRecAux item_id order items v).2 ∧
    (dfsRecAux item_id order items v).2 ≤ v + itemsSize items ∧
    ∀ r, (dfsRecAux item_id order items v).1 = some r →
      r.item.id = item_id ∧
      r.visited_nodes = (dfsRecAux item_id order items v).2 ∧
      v < (dfsRecAux item_id order items v).2 := by
  induction items, v using dfsRecAux.induct item_id order with
  | case1 v => simp [dfsRecAux]
  | case2 v item rest horder hmatch =>
    subst horder
    have hsp := Item.size_pos item
    have hic := itemsSize_cons item rest
    simp only [dfsRecAux, hmatch, if_true]
    refine ⟨by omega, by omega, ?_⟩
    intro r hr
    cases hr
    exact ⟨hmatch, rfl, by omega⟩
  | case3 v item rest horder v1 hmatch r c hchild ihc =>
    subst horder
    have hsc := Item.size_children item
    have hic := itemsSize_cons item rest
    have hv1 : v1 = v + 1 := rfl
    rw [hv1] at hchild ihc
    rw [hchild] at ihc
    simp only [dfsRecAux, hmatch, if_false, hchild]
    obtain ⟨h1, h2, h3⟩ := ihc
    obtain ⟨hr1, hr2, hr3⟩ := h3 r rfl
    refine ⟨by omega, by omega, ?_⟩
    intro r2 hr
    cases hr
    exact ⟨hr1, hr2, by omega⟩
  | case4 v item rest horder v1 hmatch c hchild ihc ihr =>
    subst horder
    have hsc := Item.size_children item
    have hic := itemsSize_cons item rest
    have hv1 : v1 = v + 1 := rfl
    rw [hv1] at hchild ihc
    rw [hchild] at ihc
    obtain ⟨h1, h2, _⟩ := ihc
    obtain ⟨h4, h5, h6⟩ := ihr
    simp only [dfsRecAux, hmatch, if_false, hchild]
    refine ⟨by omega, by omega, ?_⟩
    intro r2 hr
    obtain ⟨hr1, hr2, hr3⟩ := h6 r2 hr
    exact ⟨hr1, hr2, by omega⟩
  | case5 v item rest horder r c hchild ihc =>
    subst horder
    have hsc := Item.size_children item
    have hic := itemsSize_cons item rest
    rw [hchild] at ihc
    obtain ⟨h1, h2, h3⟩ := ihc
    obtain ⟨hr1, hr2, hr3⟩ := h3 r rfl
    simp only [dfsRecAux, hchild]
    refine ⟨by omega, by omega, ?_⟩
    intro r2 hr
    cases hr
    exact ⟨hr1, hr2, by omega⟩
  | case6 v item rest horder c hchild hmatch ihc =>
    subst horder
    have hsc := Item.size_children item
    have hic := itemsSize_cons item rest
    rw [hchild] at ihc
    obtain ⟨h1, h2, _⟩ := ihc
    simp only [dfsRecAux, hchild, hmatch, if_true]
    refine ⟨by omega, by omega, ?_⟩
    intro r2 hr
    cases hr
    exact ⟨hmatch, rfl, by omega⟩
  | case7 v item rest horder c hchild v1 hmatch ihc ihr =>
    subst horder
    have hsc := Item.size_children item
    have hic := itemsSize_cons item rest
    have hv1 : v1 = c + 1 := rfl
    rw [hv1] at ihr
    rw [hchild] at ihc
    obtain ⟨h1, h2, _⟩ := ihc
    obtain ⟨h4, h5, h6⟩ := ihr
    simp only [dfsRecAux, hchild, hmatch, if_false]
    refine ⟨by omega, by omega, ?_⟩
    intro r2 hr
    obtain ⟨hr1, hr2, hr3⟩ := h6 r2 hr
    exact ⟨hr1, hr2, by omega⟩

/-- All nodes of a task's subtree, in preorder. -/
def Task.nodes (t : Task) : List Item := Item.task t :: t.steps.map Item.step

/-- All nodes of a lab's subtree, in preorder. -/
def Lab.nodes (l : Lab) : List Item :=
  Item.lab l :: (l.tasks.map Task.nodes).flatten

/-- All nodes of a course's subtree, in preorder. -/
def Course.nodes (c : Course) : List Item :=
  Item.course c :: (c.labs.map Lab.nodes).flatten

/-- All nodes of a forest, in preorder. -/
def forestNodes (courses : List Course) : List Item :=
  (courses.map Course.nodes).flatten

theorem length_task_nodes (t : Task) : (Task.nodes t).length = Task.size t := by
  simp [Task.nodes, Task.size, Nat.add_comm]

theorem length_lab_nodes (l : Lab) : (Lab.nodes l).length = Lab.size l := by
  simp [Lab.nodes, Lab.size, List.length_flatten, List.map_map,
    Function.comp_def, length_task_nodes, Nat.add_comm]

theorem length_course_nodes (c : Course) :
    (Course.nodes c).length = Course.size c := by
  simp [Course.nodes, Course.size, List.length_flatten, List.map_map,
    Function.comp_def, length_lab_nodes, Nat.add_comm]

theorem forestNodes_length (courses : List Course) :
    (forestNodes courses).length = itemsSize (courses.map Item.course) := by
  simp [forestNodes, List.length_flatten, List.map_map, Function.comp_def,
    length_course_nodes, itemsSize_map_course]

theorem find_by_id_eq_none_iff {T : Type} [Identifiable T] (items : List T)
    (item_id : String) :
    find_by_id items item_id = none ↔
      ∀ x ∈ items, Identifiable.ident x ≠ item_id := by
  induction items with
  | nil => simp [find_by_id]
  | cons a rest ih =>
    by_cases h : Identifiable.ident a = item_id
    · constructor
      · intro hn
        rw [find_by_id] at hn
        simp [h] at hn
      · intro hall
        exact absurd h (hall a (List.mem_cons_self a rest))
    · have hrw : find_by_id (a :: rest) item_id = find_by_id rest item_id := by
        rw [find_by_id]
        simp [h]
      rw [hrw, ih]
      constructor
      · intro hall x hx
        rcases List.mem_cons.mp hx with hxa | hxr
        · subst hxa
          exact h
        · exact hall x hxr
      · intro hall x hx
        exact hall x (List.mem_cons_of_mem a hx)

theorem find_by_id_eq_some {T : Type} [Identifiable T] (items : List T)
    (item_id : String) (x : T) (hx : find_by_id items item_id = some x) :
    Identifiable.ident x = item_id ∧
      ∃ pre post, items = pre ++ x :: post ∧
        ∀ y ∈ pre, Identifiable.ident y ≠ item_id := by
  induction items with
  | nil => cases hx
  | cons a rest ih =>
    by_cases h : Identifiable.ident a = item_id
    · rw [find_by_id] at hx
      simp only [h, if_true, Option.some.injEq] at hx
      subst hx
      exact ⟨h, [], rest, rfl, by simp⟩
    · rw [find_by_id] at hx
      simp only [h, if_false] at hx
      obtain ⟨hid, pre, post, heq, hpre⟩ := ih hx
      refine ⟨hid, a :: pre, post, by rw [heq]; rfl, ?_⟩
      intro y hy
      rcases List.mem_cons.mp hy with hya | hyr
      · subst hya
        exact h
      · exact hpre y hyr

theorem get_lab_by_path_eq_bind (courses : List Course)
    (course_id lab_id : String) :
    get_lab_by_path courses course_id lab_id
      = (get_course_by_id courses course_id).bind
          fun c => get_lab_by_id c lab_id := by
  rw [get_lab_by_path, get_course_by_path]
  cases get_course_by_id courses course_id <;> rfl

theorem get_task_by_path_eq_bind (courses : List Course)
    (course_id lab_id task_id : String) :
    get_task_by_path courses course_id lab_id task_id
      = (get_course_by_id courses course_id).bind
          fun c => (get_lab_by_id c lab_id).bind
            fun l => get_task_by_id l task_id := by
  rw [get_task_by_path, get_lab_by_path_eq_bind]
  cases get_course_by_id courses course_id with
  | none => rfl
  | some c =>
    simp only [Option.some_bind]
    cases get_lab_by_id c lab_id <;> rfl

theorem get_step_by_path_eq_bind (courses : List Course)
    (course_id lab_id task_id step_id : String) :
    get_step_by_path courses course_id lab_id task_id step_id
      = (get_course_by_id courses course_id).bind
          fun c => (get_lab_by_id c lab_id).bind
            fun l => (get_task_by_id l task_id).bind
              fun t => get_step_by_id t step_id := by
  rw [get_step_by_path, get_task_by_path_eq_bind]
  cases get_course_by_id courses course_id with
  | none => rfl
  | some c =>
    simp only [Option.some_bind]
    cases get_lab_by_id c lab_id with
    | none => rfl
    | some l =>
      simp only [Option.some_bind]
      cases get_task_by_id l task_id <;> rfl

/-- Sample forest used by concrete statements: one Course C1 containing one
Lab L1 containing one Task T1 containing one Step S1. -/
def sampleStep : Step := ⟨"S1"⟩

def sampleTask : Task := ⟨"T1", [sampleStep]⟩

def sampleLab : Lab := ⟨"L1", [sampleTask]⟩

def sampleCourse : Course := ⟨"C1", [sampleLab]⟩

def sampleForest : List Course := [sampleCourse]

/-- C1: for every forest of courses and every item id present in that
forest, the iterative and the recursive DFS, both in PreOrder, return the
same result — the same matched node and the same visited_nodes count. -/
theorem dfs_preorder_iterative_eq_recursive (courses : List Course)
    (item_id : String) (h : item_id ∈ (forestNodes courses).map Item.id) :
    get_item_by_id_dfs_iterative courses item_id .PreOrder
      = get_item_by_id_dfs_recursive (courses.map Item.course) item_id
          .PreOrder := by
  rw [get_item_by_id_dfs_recursive, dfsRecAux_courses_eq_iterCourses]
  rfl

theorem dfs_preorder_iterative_eq_recursive_witness :
    "S1" ∈ (forestNodes sampleForest).map Item.id ∧
    get_item_by_id_dfs_iterative sampleForest "S1" .PreOrder
      = get_item_by_id_dfs_recursive (sampleForest.map Item.course) "S1"
          .PreOrder :=
  ⟨by decide,
   dfs_preorder_iterative_eq_recursive sampleForest "S1" (by decide)⟩

/-- C2: on the forest with the single Course C1 ⊃ Lab L1 ⊃ Task T1 ⊃ Step
S1, the recursive DFS searching "C1" returns FoundItem(C1, 4) in PostOrder
(children counted first: S1, T1, L1, C1) and FoundItem(C1, 1) in PreOrder. -/
theorem dfs_recursive_postorder_counts_children_first :
    get_item_by_id_dfs_recursive (sampleForest.map Item.course) "C1"
        .PostOrder = some ⟨Item.course sampleCourse, 4⟩ ∧
    get_item_by_id_dfs_recursive (sampleForest.map Item.course) "C1"
        .PreOrder = some ⟨Item.course sampleCourse, 1⟩ := by
  constructor <;>
    simp [get_item_by_id_dfs_recursive, dfsRecAux, sampleForest, sampleCourse,
      sampleLab, sampleTask, sampleStep, Item.children, Item.id]

/-- C3: for every forest and every item id, the iterative DFS in PostOrder
returns absent, and so does the entry point `get_item_by_id`, which
delegates to it. -/
theorem dfs_iterative_postorder_always_absent (courses : List Course)
    (item_id : String) :
    get_item_by_id_dfs_iterative courses item_id .PostOrder = none ∧
    get_item_by_id courses item_id .PostOrder = none :=
  ⟨rfl, rfl⟩

/-- C4: `find_by_id` returns the first element (in sequence order) whose id
equals the searched id, and absent when no element has that id. -/
theorem find_by_id_first_occurrence {T : Type} [Identifiable T]
    (items : List T) (item_id : String) :
    (find_by_id items item_id = none ↔
      ∀ x ∈ items, Identifiable.ident x ≠ item_id) ∧
    ∀ x, find_by_id items item_id = some x →
      Identifiable.ident x = item_id ∧
      ∃ pre post, items = pre ++ x :: post ∧
        ∀ y ∈ pre, Identifiable.ident y ≠ item_id :=
  ⟨find_by_id_eq_none_iff items item_id,
   fun x hx => find_by_id_eq_some items item_id x hx⟩

theorem find_by_id_first_occurrence_witness :
    Identifiable.ident (⟨"b", []⟩ : Course) = "b" ∧
    ∃ pre post,
      ([⟨"a", []⟩, ⟨"b", []⟩, ⟨"b", [⟨"x", []⟩]⟩] : List Course)
        = pre ++ (⟨"b", []⟩ : Course) :: post ∧
      ∀ y ∈ pre, Identifiable.ident y ≠ "b" :=
  (find_by_id_first_occurrence
      ([⟨"a", []⟩, ⟨"b", []⟩, ⟨"b", [⟨"x", []⟩]⟩] : List Course) "b").2
    ⟨"b", []⟩ (by decide)

/-- C5: each path lookup equals the chain of id lookups with absent
propagated at every step. -/
theorem path_lookups_eq_id_chains (courses : List Course)
    (course_id lab_id task_id step_id : String) :
    get_lab_by_path courses course_id lab_id
      = (get_course_by_id courses course_id).bind
          (fun c => get_lab_by_id c lab_id) ∧
    get_task_by_path courses course_id lab_id task_id
      = (get_course_by_id courses course_id).bind
          (fun c => (get_lab_by_id c lab_id).bind
            fun l => get_task_by_id l task_id) ∧
    get_step_by_path courses course_id lab_id task_id step_id
      = (get_course_by_id courses course_id).bind
          (fun c => (get_lab_by_id c lab_id).bind
            fun l => (get_task_by_id l task_id).bind
              fun t => get_step_by_id t step_id) :=
  ⟨get_lab_by_path_eq_bind courses course_id lab_id,
   get_task_by_path_eq_bind courses course_id lab_id task_id,
   get_step_by_path_eq_bind courses course_id lab_id task_id step_id⟩

/-- C6: every lookup returns absent on a miss (the functions are total, so
no error is ever raised), and each path lookup short-circuits to absent as
soon as the ancestor lookup fails. -/
theorem lookups_absent_on_miss {T : Type} [Identifiable T] (items : List T)
    (courses : List Course)
    (course_id lab_id task_id step_id item_id : String) :
    ((∀ x ∈ items, Identifiable.ident x ≠ item_id) →
      find_by_id items item_id = none) ∧
    (get_course_by_path courses course_id = none →
      get_lab_by_path courses course_id lab_id = none) ∧
    (get_lab_by_path courses course_id lab_id = none →
      get_task_by_path courses course_id lab_id task_id = none) ∧
    (get_task_by_path courses course_id lab_id task_id = none →
      get_step_by_path courses course_id lab_id task_id step_id = none) := by
  refine ⟨(find_by_id_eq_none_iff items item_id).mpr, ?_, ?_, ?_⟩
  · intro h
    rw [get_lab_by_path, h]
  · intro h
    rw [get_task_by_path, h]
  · intro h
    rw [get_step_by_path, h]

theorem lookups_absent_on_miss_witness :
    find_by_id sampleForest "zzz" = none ∧
    get_lab_by_path sampleForest "nope" "L1" = none ∧
    get_task_by_path sampleForest "nope" "L1" "T1" = none ∧
    get_step_by_path sampleForest "nope" "L1" "T1" "S1" = none := by
  obtain ⟨h1, h2, h3, h4⟩ :=
    lookups_absent_on_miss sampleForest sampleForest "nope" "L1" "T1" "S1"
      "zzz"
  have hc : get_course_by_path sampleForest "nope" = none := by decide
  have hl := h2 hc
  exact ⟨h1 (by decide), hl, h3 hl, h4 (h3 hl)⟩

/-- C7: searching an empty forest with any id and either order returns
absent, with zero nodes visited, for both implementations. -/
theorem dfs_empty_forest_absent (item_id : String) (order : Order) :
    get_item_by_id_dfs_iterative [] item_id order = none ∧
    get_item_by_id_dfs_recursive [] item_id order = none ∧
    iterCourses [] item_id 0 = (none, 0) ∧
    dfsRecAux item_id order [] 0 = (none, 0) := by
  refine ⟨?_, ?_, rfl, ?_⟩
  · cases order <;> rfl
  · simp [get_item_by_id_dfs_recursive, dfsRecAux]
  · simp [dfsRecAux]

/-- C9: whenever either DFS returns a FoundItem, the item's id is the
searched id and the visited_nodes count is between 1 and the total number
of nodes of the forest. -/
theorem dfs_found_item_invariant (courses : List Course) (item_id : String)
    (order : Order) (r : FoundItem) :
    (get_item_by_id_dfs_iterative courses item_id order = some r →
      r.item.id = item_id ∧ 1 ≤ r.visited_nodes ∧
      r.visited_nodes ≤ (forestNodes courses).length) ∧
    (get_item_by_id_dfs_recursive (courses.map Item.course) item_id order
        = some r →
      r.item.id = item_id ∧ 1 ≤ r.visited_nodes ∧
      r.visited_nodes ≤ (forestNodes courses).length) := by
  have hrec : ∀ o : Order,
      get_item_by_id_dfs_recursive (courses.map Item.course) item_id o
          = some r →
      r.item.id = item_id ∧ 1 ≤ r.visited_nodes ∧
      r.visited_nodes ≤ (forestNodes courses).length := by
    intro o hsome
    obtain ⟨h1, h2, h3⟩ := dfsRecAux_spec item_id o (courses.map Item.course) 0
    rw [get_item_by_id_dfs_recursive] at hsome
    obtain ⟨hr1, hr2, hr3⟩ := h3 r hsome
    rw [forestNodes_length]
    exact ⟨hr1, by omega, by omega⟩
  constructor
  · intro hiter
    cases order with
    | PreOrder =>
      apply hrec .PreOrder
      rw [get_item_by_id_dfs_recursive, dfsRecAux_courses_eq_iterCourses]
      exact hiter
    | PostOrder => cases hiter
  · exact hrec order

theorem dfs_found_item_invariant_witness :
    (Item.step sampleStep).id = "S1" ∧ 1 ≤ 4 ∧
    4 ≤ (forestNodes sampleForest).length :=
  (dfs_found_item_invariant sampleForest "S1" .PreOrder
      ⟨Item.step sampleStep, 4⟩).1 (by decide)

/-- C10: the recursive DFS is total (it is defined by well-founded recursion
on the subtree size of the fixed four-level hierarchy) and visits each node
at most once: from a zero start its counter never exceeds the total number
of nodes of the forest, and Step nodes contribute no children. -/
theorem dfs_recursive_counter_bounded (courses : List Course)
    (item_id : String) (order : Order) :
    (dfsRecAux item_id order (courses.map Item.course) 0).2
        ≤ (forestNodes courses).length ∧
    ∀ s : Step, (Item.step s).children = [] := by
  constructor
  · have h := (dfsRecAux_spec item_id order (courses.map Item.course) 0).2.1
    rw [forestNodes_length]
    omega
  · intro s
    rfl

end ItemService
